import Mathlib

/-!
Shallow embedding of the ingestion pipeline and hybrid-retrieval engine of
`vdb_center` (files `src/db/models.py`, `src/db/mapper.py`,
`src/service/kb_service.py`), together with theorems checking the
natural-language specification against it.

Database tables are modelled as lists of rows; SQL `UPDATE ... WHERE`
becomes a `List.map` guarded by the `WHERE` predicate, `SELECT ... WHERE`
becomes `List.filter`, and the PostgreSQL `INSERT ... ON CONFLICT DO
UPDATE` of `upsert_chunks` becomes an explicit conflict check on the
`(kb_id, chunk_index)` unique key.  Timestamps (`func.now()`) are an
abstract clock value passed in as a `Nat`.  The external collaborators
(embedding service, tokenizer) are parameters, as §6 of the spec treats
them as interface boundaries: the embedding call is a function
`List String → Option (List (List Int))` where `none` models the call
raising, and a `some` result of the wrong length models the
count-mismatch case checked by `_iter_processed_chunks`.
-/

namespace VdbCenter

/-- Ingestion status of a knowledge base: the closed enumeration
`ingesting / succeeded / failed` of `KB_INGEST_STATUS_VALUES` in
`src/db/models.py`, enforced there by `ck_knowledge_base_ingest_status`. -/
inductive IngestStatus where
  | ingesting
  | succeeded
  | failed
deriving DecidableEq, Repr

/-- A row of the `knowledge_base` table (`KnowledgeBase` in
`src/db/models.py`, plus the `source` / `date` values written through
`src/db/mapper.py`).  `isDeleted` is the integer soft-delete flag
(0 = live, 1 = deleted); `updateTime` stands for `update_time`. -/
structure KBRow where
  id : Nat
  projectId : Nat
  fileName : Option String
  source : Option String
  date : Option Nat
  qaItems : Bool
  ingestStatus : IngestStatus
  successCount : Int
  failedCount : Int
  isDeleted : Nat
  updateTime : Nat
deriving DecidableEq, Repr

/-- A row of the `item` table (`Item` in `src/db/models.py`, plus the
`source` / `date` values written by `upsert_chunks`).  The embedding
vector is a list of abstract components and `fts` keeps the token list
fed to `make_fts`. -/
structure ItemRow where
  id : Nat
  projectId : Nat
  kbId : Nat
  chunkIndex : Nat
  originText : String
  question : Option String
  answer : Option String
  source : Option String
  date : Option Nat
  embedding : List Int
  fts : List String
  isDeleted : Nat
  updateTime : Nat
deriving DecidableEq, Repr

/-- The database state: both tables plus the id sequences used by
`autoincrement` primary keys. -/
structure DB where
  kbs : List KBRow
  items : List ItemRow
  nextKbId : Nat
  nextItemId : Nat
deriving DecidableEq, Repr

/-- One chunk dict as assembled by `_iter_processed_chunks` /
`add_single_qa_item` and consumed by `upsert_chunks`. -/
structure Chunk where
  chunkIndex : Nat
  text : String
  question : Option String
  answer : Option String
  source : Option String
  date : Option Nat
  dense : List Int
  tokens : List String
deriving DecidableEq, Repr

/-- `min` of a list of ids, modelling `ORDER BY id ASC LIMIT 1`. -/
def minNat? : List Nat → Option Nat
  | [] => none
  | x :: xs => some (xs.foldl Nat.min x)

/-! ## `src/db/mapper.py` -/

/-- `create_kb`: inserts a fresh `KnowledgeBase` row and returns its id.
The `ingest_status not in KB_INGEST_STATUS_VALUES` guard of the source
cannot fire here because `IngestStatus` is the closed enumeration. -/
def create_kb (db : DB) (fileName : Option String) (projectId : Nat)
    (source : Option String) (date : Option Nat) (qaItems : Bool)
    (ingestStatus : IngestStatus) (now : Nat) : Nat × DB :=
  let kb : KBRow :=
    { id := db.nextKbId
      projectId := projectId
      fileName := fileName
      source := source
      date := date
      qaItems := qaItems
      ingestStatus := ingestStatus
      successCount := 0
      failedCount := 0
      isDeleted := 0
      updateTime := now }
  (db.nextKbId, { db with kbs := db.kbs ++ [kb], nextKbId := db.nextKbId + 1 })

/-- The `WHERE` clause of `get_project_qa_kb_id`: non-deleted QA-flagged
rows of the project. -/
def isLiveQaKb (projectId : Nat) (kb : KBRow) : Bool :=
  kb.projectId == projectId && kb.qaItems && kb.isDeleted == 0

/-- `get_project_qa_kb_id`: id of the project's live QA knowledge base
(`ORDER BY id ASC LIMIT 1`), or `none`. -/
def get_project_qa_kb_id (db : DB) (projectId : Nat) : Option Nat :=
  minNat? ((db.kbs.filter (isLiveQaKb projectId)).map (·.id))

/-- `get_next_chunk_index`: `coalesce(max(chunk_index), -1) + 1` over all
rows of the kb — deleted and non-deleted alike (no `is_deleted` filter in
the source query). -/
def get_next_chunk_index (db : DB) (kbId projectId : Nat) : Nat :=
  match (db.items.filter
      (fun it => it.kbId == kbId && it.projectId == projectId)).map (·.chunkIndex) with
  | [] => 0
  | x :: xs => xs.foldl Nat.max x + 1

/-- `get_item_id_by_chunk_index`: id of the live row at a chunk index
(`LIMIT 1`). -/
def get_item_id_by_chunk_index (db : DB) (kbId projectId chunkIndex : Nat) :
    Option Nat :=
  ((db.items.filter (fun it =>
      it.kbId == kbId && it.projectId == projectId &&
      it.chunkIndex == chunkIndex && it.isDeleted == 0)).map (·.id)).head?

/-- `get_existing_origin_texts`: the `origin_text` values among
`originTexts` already present on non-deleted rows of the kb.  The Python
function returns a `set`; the model returns the hit list, used only
through membership. -/
def get_existing_origin_texts (db : DB) (kbId projectId : Nat)
    (originTexts : List String) : List String :=
  if originTexts.isEmpty then []
  else
    (db.items.filter (fun it =>
        it.kbId == kbId && it.projectId == projectId && it.isDeleted == 0 &&
        originTexts.contains it.originText)).map (·.originText)

/-- `update_kb_ingest_status`: updates status (and, when supplied, the
counts clamped by `max(0, ·)`) on non-deleted rows of the kb scoped to
the project.  Rows not matching the `WHERE` clause are untouched. -/
def update_kb_ingest_status (db : DB) (kbId projectId : Nat)
    (ingestStatus : IngestStatus) (successCount failedCount : Option Int)
    (now : Nat) : DB :=
  { db with kbs := db.kbs.map (fun kb =>
      if kb.id == kbId && kb.projectId == projectId && kb.isDeleted == 0 then
        { kb with
          ingestStatus := ingestStatus
          updateTime := now
          successCount :=
            match successCount with
            | some c => max 0 c
            | none => kb.successCount
          failedCount :=
            match failedCount with
            | some c => max 0 c
            | none => kb.failedCount }
      else kb) }

/-- The conflict target of `upsert_chunks`: the `(kb_id, chunk_index)`
unique key `uq_item_kb_chunk_index`. -/
def keyMatch (kbId chunkIndex : Nat) (it : ItemRow) : Bool :=
  it.kbId == kbId && it.chunkIndex == chunkIndex

/-- Two item rows with different `(kb_id, chunk_index)` keys — the
pairwise form of the `uq_item_kb_chunk_index` unique constraint. -/
def keyDistinct (a b : ItemRow) : Prop :=
  a.kbId ≠ b.kbId ∨ a.chunkIndex ≠ b.chunkIndex

/-- One row of `upsert_chunks`' `INSERT ... ON CONFLICT (kb_id,
chunk_index) DO UPDATE`: on conflict every value column is overwritten
from the excluded row, `is_deleted` is forced back to 0 and `update_time`
refreshed; otherwise a fresh row is inserted. -/
def upsertOne (db : DB) (kbId projectId : Nat) (c : Chunk) (now : Nat) : DB :=
  if db.items.any (keyMatch kbId c.chunkIndex) then
    { db with items := db.items.map (fun it =>
        if keyMatch kbId c.chunkIndex it then
          { it with
            originText := c.text
            source := c.source
            date := c.date
            question := c.question
            answer := c.answer
            embedding := c.dense
            fts := c.tokens
            projectId := projectId
            isDeleted := 0
            updateTime := now }
        else it) }
  else
    { db with
      items := db.items ++
        [{ id := db.nextItemId
           projectId := projectId
           kbId := kbId
           chunkIndex := c.chunkIndex
           originText := c.text
           question := c.question
           answer := c.answer
           source := c.source
           date := c.date
           embedding := c.dense
           fts := c.tokens
           isDeleted := 0
           updateTime := now }]
      nextItemId := db.nextItemId + 1 }

/-- `upsert_chunks`: the batch upsert, row by row. -/
def upsert_chunks (db : DB) (kbId projectId : Nat) (chunks : List Chunk)
    (now : Nat) : DB :=
  chunks.foldl (fun d c => upsertOne d kbId projectId c now) db

/-- Reason codes of `soft_delete_kb_and_chunks`
(`KB_DELETE_REASON_*` in `src/db/mapper.py`). -/
inductive DeleteReason where
  | deleted
  | notFound
  | alreadyDeleted
  | qaKbForbidden
  | ingestingForbidden
deriving DecidableEq, Repr

/-- The result dict of `soft_delete_kb_and_chunks`. -/
structure DeleteResult where
  kbId : Nat
  projectId : Nat
  kbDeleted : Bool
  itemDeletedCount : Nat
  reason : DeleteReason
deriving DecidableEq, Repr

/-- `soft_delete_kb_and_chunks`: locks and reads the target row, applies
the check sequence (not found → already deleted → QA forbidden →
ingesting forbidden), then soft-deletes the kb row and all its live
items, reporting the affected-row counts. -/
def soft_delete_kb_and_chunks (db : DB) (kbId projectId : Nat)
    (forbidQaKb forbidIngesting : Bool) (now : Nat) : DeleteResult × DB :=
  let base : DeleteResult :=
    { kbId := kbId, projectId := projectId, kbDeleted := false
      itemDeletedCount := 0, reason := .notFound }
  match db.kbs.find? (fun kb => kb.id == kbId && kb.projectId == projectId) with
  | none => (base, db)
  | some kbRow =>
    if kbRow.isDeleted != 0 then
      ({ base with reason := .alreadyDeleted }, db)
    else if forbidQaKb && kbRow.qaItems then
      ({ base with reason := .qaKbForbidden }, db)
    else if forbidIngesting && kbRow.ingestStatus == .ingesting then
      ({ base with reason := .ingestingForbidden }, db)
    else
      let kbHit := db.kbs.filter (fun kb =>
        kb.id == kbId && kb.projectId == projectId && kb.isDeleted == 0)
      let itemHit := db.items.filter (fun it =>
        it.kbId == kbId && it.projectId == projectId && it.isDeleted == 0)
      let db' : DB :=
        { db with
          kbs := db.kbs.map (fun kb =>
            if kb.id == kbId && kb.projectId == projectId && kb.isDeleted == 0 then
              { kb with isDeleted := 1, updateTime := now }
            else kb)
          items := db.items.map (fun it =>
            if it.kbId == kbId && it.projectId == projectId && it.isDeleted == 0 then
              { it with isDeleted := 1, updateTime := now }
            else it) }
      let kbDeleted := decide (0 < kbHit.length)
      ({ base with
          kbDeleted := kbDeleted
          itemDeletedCount := itemHit.length
          reason := if kbDeleted then .deleted else .alreadyDeleted }, db')

/-- A retrieval hit as built by `retrieve_dense` / `retrieve_bm25`:
`{id, text, source, date, score}`.  The score (a float in the source) is
an abstract numeric; the merge never reads it. -/
structure Hit where
  id : Nat
  text : String
  source : Option String
  date : Option Nat
  score : Int
deriving DecidableEq, Repr

/-- `get_or_create_project_qa_kb_id`.  The advisory lock
`pg_advisory_xact_lock(project_id)` serializes the check-then-create
critical section; `race` models the one interleaving the source still
defends against (lock unsupported or a race slipping through): a row
committed by a concurrent transaction after our check and before our
insert.  `create_kb` hits the partial unique index
`uq_knowledge_base_project_qa_items` exactly when a live QA row of the
project is already present; on that `IntegrityError` the session is
rolled back (our pending insert is discarded, the concurrently committed
row stays) and the query is retried.  The final `none` corresponds to
the re-raise when the retry still finds nothing. -/
def get_or_create_project_qa_kb_id (db : DB) (projectId : Nat)
    (race : Option KBRow) (now : Nat) : Option Nat × DB :=
  match get_project_qa_kb_id db projectId with
  | some kbId => (some kbId, db)
  | none =>
    let dbRace : DB :=
      match race with
      | some r => { db with kbs := db.kbs ++ [r] }
      | none => db
    if (dbRace.kbs.filter (isLiveQaKb projectId)).isEmpty then
      let created := create_kb dbRace (some "qa_items") projectId none none
        true .succeeded now
      (some created.1, created.2)
    else
      match get_project_qa_kb_id dbRace projectId with
      | some kbId => (some kbId, dbRace)
      | none => (none, dbRace)

/-- The row `get_or_create_project_qa_kb_id` inserts through `create_kb`
when the project has no live QA kb: `file_name = "qa_items"`,
`qa_items = true`, ingest status `succeeded`. -/
def newQaRow (kbId projectId now : Nat) : KBRow :=
  { id := kbId
    projectId := projectId
    fileName := some "qa_items"
    source := none
    date := none
    qaItems := true
    ingestStatus := .succeeded
    successCount := 0
    failedCount := 0
    isDeleted := 0
    updateTime := now }

/-! ## `src/service/kb_service.py` -/

/-- A text segment extracted from the uploaded file: one element of the
chunk dict list produced by `_load_file` (`{text, question?, answer?}`).
File parsing itself is an excluded collaborator (spec §1/§6). -/
structure Segment where
  text : String
  question : Option String
  answer : Option String
deriving DecidableEq, Repr

/-- The embedding collaborator `get_text_embedding`: `none` models the
call raising; a list of the wrong length models the count-mismatch
case. -/
def Embed : Type := List String → Option (List (List Int))

/-- The tokenizer collaborator (`cut_cn`, backed by jieba). -/
def Tok : Type := String → List String

/-- Python's `str.strip()`: drop leading and trailing whitespace,
expressed over the char-list representation so it evaluates on concrete
inputs. -/
def pyStrip (s : String) : String :=
  { data := (((s.data.dropWhile Char.isWhitespace).reverse).dropWhile
      Char.isWhitespace).reverse }

/-- `_build_qa_text`. -/
def buildQaText (question answer : String) : String :=
  s!"问题：{question}\n答案：{answer}"

/-- The within-batch half of `_dedup_qa_chunks_by_origin_text`: exact
text match, first occurrence wins, later duplicates dropped. -/
def dedupSegsAux (seen : List String) : List Segment → List Segment
  | [] => []
  | c :: rest =>
    if seen.contains c.text then dedupSegsAux seen rest
    else c :: dedupSegsAux (c.text :: seen) rest

/-- `_dedup_qa_chunks_by_origin_text`: within-batch de-duplication by
exact text, then a store lookup dropping segments whose text already
exists non-deleted in the kb; returns the survivors and the skip
count. -/
def dedup_qa_chunks_by_origin_text (db : DB) (kbId projectId : Nat)
    (segs : List Segment) : List Segment × Nat :=
  if segs.isEmpty then ([], 0)
  else
    let uniqueChunks := dedupSegsAux [] segs
    let existing := get_existing_origin_texts db kbId projectId
      (uniqueChunks.map (·.text))
    let filtered := uniqueChunks.filter (fun c => !existing.contains c.text)
    (filtered, segs.length - filtered.length)

/-- The batch loop of `_iter_processed_chunks`, structurally recursive on
a fuel argument.  Every embedding batch consumes at least one segment, so
a fuel equal to the initial number of segments (supplied by
`iterProcessedChunks`) never runs out; the fuel-exhausted branch is
unreachable from `iterProcessedChunks`. -/
def iterChunksGo (embed : Embed) (tok : Tok) (ebs : Nat) :
    Nat → List Segment → Nat → List Chunk × Option String
  | _, [], _ => ([], none)
  | 0, _ :: _, _ => ([], none)
  | fuel + 1, seg :: rest, startIdx =>
    let batch := seg :: rest.take (ebs - 1)
    let batchTexts := batch.map (·.text)
    match embed batchTexts with
    | none => ([], some "embedding call failed")
    | some embeddings =>
      if embeddings.length != batchTexts.length then
        ([], some s!"Embedding count mismatch: got {embeddings.length}, expected {batchTexts.length}")
      else
        let processed := (batch.zip embeddings).enum.map (fun p =>
          { chunkIndex := startIdx + p.1
            text := p.2.1.text
            question := p.2.1.question
            answer := p.2.1.answer
            source := none
            date := none
            dense := p.2.2
            tokens := tok p.2.1.text : Chunk })
        let tail := iterChunksGo embed tok ebs fuel (rest.drop (ebs - 1))
          (startIdx + batch.length)
        (processed ++ tail.1, tail.2)

/-- `_iter_processed_chunks`: processes the segments in embedding batches
of `ebs` (`embedding_batch_size`, positive in the service), calling the
embedding collaborator once per batch and failing the whole run on a
count mismatch.  Returns the chunks processed before any failure together
with the error, if one occurred; each chunk is paired with
`start_chunk_index + i + offset`, its tokens and its vector. -/
def iterProcessedChunks (embed : Embed) (tok : Tok) (ebs : Nat)
    (segs : List Segment) (startIdx : Nat) : List Chunk × Option String :=
  iterChunksGo embed tok ebs segs.length segs startIdx

/-- The `chunks, skipped_count` local of `run_kb_ingest_task`: the
segment list after the optional dedup step, with the skip count. -/
def pipelineSegs (kbId projectId : Nat) (segments : List Segment)
    (dedupOriginText : Bool) (db : DB) : List Segment × Nat :=
  if dedupOriginText then
    dedup_qa_chunks_by_origin_text db kbId projectId segments
  else (segments, 0)

/-- The `start_chunk_index` local of `run_kb_ingest_task`: 0 for a fresh
ingestion, the next free index in append mode. -/
def pipelineStart (kbId projectId : Nat) (appendToExisting : Bool)
    (db : DB) : Nat :=
  if appendToExisting then get_next_chunk_index db kbId projectId else 0

/-- The `try` body of `run_kb_ingest_task` after the initial status
commit: load check, optional dedup, start-index choice, batched
embedding + upserts, zero-written check.  All of it runs inside one
database transaction on top of `db` (there is no commit between
batches), so the sequence of per-`db_upsert_batch_size` `upsert_chunks`
calls composes into a single fold over the processed chunks; on success
it returns the uncommitted state together with `total_upserted` and the
dedup skip count, on an exception the uncommitted state is dropped by
the caller's rollback. -/
def ingestPipeline (embed : Embed) (tok : Tok) (ebs : Nat)
    (kbId projectId : Nat) (segments : List Segment)
    (appendToExisting dedupOriginText : Bool) (db : DB) (now : Nat) :
    Except String (DB × Nat × Nat) :=
  if segments.isEmpty then
    .error "No valid chunks extracted from the file."
  else
    match iterProcessedChunks embed tok ebs
        (pipelineSegs kbId projectId segments dedupOriginText db).1
        (pipelineStart kbId projectId appendToExisting db) with
    | (_, some e) => .error e
    | (processed, none) =>
      if processed.length == 0 && !dedupOriginText then
        .error "Failed to process chunks from the file."
      else
        .ok (upsert_chunks db kbId projectId processed now, processed.length,
          (pipelineSegs kbId projectId segments dedupOriginText db).2)

/-- `run_kb_ingest_task`.  The function first commits the transition to
`ingesting` with both counts reset; the pipeline then works in a fresh
transaction whose writes become durable only with the final commit.  On
success the `succeeded` status with `success_count = total_upserted` and
`failed_count = max(0, total_input_count - total_upserted)` is committed
together with the upserts.  On any exception the session is rolled back
(discarding every upsert of the run) and a best-effort `failed` status
with `success_count = 0, failed_count = total_input_count` is committed
in a fresh transaction; the function returns `(false, message)` instead
of raising.  The returned `DB` is the committed state. -/
def run_kb_ingest_task (embed : Embed) (tok : Tok) (ebs : Nat)
    (kbId projectId : Nat) (segments : List Segment)
    (appendToExisting dedupOriginText : Bool) (db0 : DB) (now : Nat) :
    (Bool × String) × DB :=
  match ingestPipeline embed tok ebs kbId projectId segments
      appendToExisting dedupOriginText
      (update_kb_ingest_status db0 kbId projectId .ingesting (some 0) (some 0)
        now) now with
  | .error e =>
    ((false, s!"Knowledge base ingestion failed (kb_id={kbId}): {e}"),
      update_kb_ingest_status
        (update_kb_ingest_status db0 kbId projectId .ingesting (some 0)
          (some 0) now)
        kbId projectId .failed (some 0) (some ((segments.length : Int))) now)
  | .ok done =>
    ((true,
      if dedupOriginText then
        s!"Knowledge base created successfully with ID: {kbId}, project_id: {projectId}, success_count: {done.2.1}, failed_count: {max 0 ((segments.length : Int) - (done.2.1 : Int))}, skipped_duplicates: {done.2.2}"
      else
        s!"Knowledge base created successfully with ID: {kbId}, project_id: {projectId}, success_count: {done.2.1}, failed_count: {max 0 ((segments.length : Int) - (done.2.1 : Int))}"),
      update_kb_ingest_status done.1 kbId projectId .succeeded
        (some ((done.2.1 : Int)))
        (some (max 0 ((segments.length : Int) - (done.2.1 : Int)))) now)

/-- The result dict of `add_single_qa_item`; the non-skip branch of the
source returns a dict without the `skipped` / `reason` keys, modelled as
`skipped := false, reason := none`. -/
structure QaAddResult where
  kbId : Nat
  itemId : Option Nat
  chunkIndex : Option Nat
  skipped : Bool
  reason : Option String
deriving DecidableEq, Repr

/-- `add_single_qa_item`: strips and validates the pair, resolves or
creates the project's QA kb, commits the `ingesting` transition, skips
on a duplicate `origin_text` (setting the status back to `succeeded`),
otherwise embeds, allocates the next chunk index, upserts the single row
and commits `succeeded`.  Failures after the `ingesting` commit roll
back, best-effort commit a `failed` status and re-raise (`.error`).
The returned `DB` is the committed state. -/
def add_single_qa_item (embed : Embed) (tok : Tok) (projectId : Nat)
    (question answer : String) (db0 : DB) (race : Option KBRow) (now : Nat) :
    Except String QaAddResult × DB :=
  let q := pyStrip question
  let ans := pyStrip answer
  if q.isEmpty || ans.isEmpty then
    (.error "question and answer must not be empty.", db0)
  else
    let qaText := buildQaText q ans
    match get_or_create_project_qa_kb_id db0 projectId race now with
    | (none, _) =>
      -- `get_or_create` re-raised before anything was committed.
      (.error "IntegrityError", db0)
    | (some kbId, db1) =>
      let committedIngesting := update_kb_ingest_status db1 kbId projectId
        .ingesting none none now
      let existing := get_existing_origin_texts committedIngesting kbId
        projectId [qaText]
      if existing.contains qaText then
        let committedDone := update_kb_ingest_status committedIngesting kbId
          projectId .succeeded none none now
        (.ok { kbId := kbId, itemId := none, chunkIndex := none
               skipped := true, reason := some "duplicate_origin_text" },
          committedDone)
      else
        match embed [qaText] with
        | none =>
          let committedFail := update_kb_ingest_status committedIngesting kbId
            projectId .failed none none now
          (.error "embedding call failed", committedFail)
        | some embeddings =>
          match embeddings with
          | [] =>
            -- `(await get_text_embedding([qa_text]))[0]` raises.
            let committedFail := update_kb_ingest_status committedIngesting
              kbId projectId .failed none none now
            (.error "list index out of range", committedFail)
          | emb :: _ =>
            let chunkIndex := get_next_chunk_index committedIngesting kbId
              projectId
            let pending := upsert_chunks committedIngesting kbId projectId
              [{ chunkIndex := chunkIndex, text := qaText
                 question := some q, answer := some ans
                 source := none, date := none
                 dense := emb, tokens := tok qaText }] now
            let itemId := get_item_id_by_chunk_index pending kbId projectId
              chunkIndex
            let committedDone := update_kb_ingest_status pending kbId projectId
              .succeeded none none now
            (.ok { kbId := kbId, itemId := itemId
                   chunkIndex := some chunkIndex
                   skipped := false, reason := none },
              committedDone)

/-- The result-merge step of `retrieve_hybrid`: the Python set
`remove_dups_ids = \x7br["id"] for r in dense_results\x7d` is modelled by
an insert-if-absent fold, and the merged list is the dense results
followed by the lexical results whose id is not in the set. -/
def retrieve_hybrid_merged (denseResults bm25Results : List Hit) : List Hit :=
  let removeDupsIds := denseResults.foldl
    (fun s r => if s.contains r.id then s else s ++ [r.id]) []
  denseResults ++ bm25Results.filter (fun r => !removeDupsIds.contains r.id)

/-! ## Concrete fixtures (used to instantiate the theorems) -/

/-- A live, succeeded, non-QA knowledge base row (id 1, project 1). -/
def kbFix : KBRow :=
  { id := 1
    projectId := 1
    fileName := some "doc.pdf"
    source := none
    date := none
    qaItems := false
    ingestStatus := .succeeded
    successCount := 0
    failedCount := 0
    isDeleted := 0
    updateTime := 0 }

/-- A live QA knowledge base row for project 1. -/
def kbQaFix : KBRow := { kbFix with qaItems := true }

/-- A live item of kb 1 / project 1 at chunk index 0 with text `x`. -/
def itemFix : ItemRow :=
  { id := 10
    projectId := 1
    kbId := 1
    chunkIndex := 0
    originText := "x"
    question := none
    answer := none
    source := none
    date := none
    embedding := [1]
    fts := ["x"]
    isDeleted := 0
    updateTime := 0 }

/-- A soft-deleted item of kb 1 / project 1 at chunk index 4. -/
def itemDelFix : ItemRow := { itemFix with id := 11, chunkIndex := 4, isDeleted := 1 }

/-- A database with one live non-QA kb, one live item and one deleted item. -/
def dbFix : DB := { kbs := [kbFix], items := [itemFix, itemDelFix], nextKbId := 2, nextItemId := 12 }

/-- A database with one live QA kb and one live item. -/
def dbQaFix : DB := { kbs := [kbQaFix], items := [itemFix], nextKbId := 2, nextItemId := 11 }

/-- An embedding collaborator fixture returning one vector per input. -/
def embedOk : Embed := fun ts => some (ts.map (fun _ => [1]))

/-- An embedding collaborator fixture that always returns two vectors,
regardless of the number of inputs. -/
def embedTwo : Embed := fun _ => some [[1], [2]]

/-- An embedding collaborator fixture that succeeds on the single-text
batch `["a"]` and raises on everything else. -/
def embedFailB : Embed := fun ts => if ts = ["a"] then some [[1]] else none

/-- A tokenizer fixture. -/
def tokFix : Tok := fun t => [t]

/-- A database with one live non-QA kb and an empty chunk store. -/
def dbIngFix : DB := { kbs := [kbFix], items := [], nextKbId := 2, nextItemId := 1 }

/-- Two one-text segments `a`, `b`. -/
def segsABFix : List Segment := [⟨"a", none, none⟩, ⟨"b", none, none⟩]

/-- Three one-text segments `x`, `y`, `z`. -/
def segs3Fix : List Segment := [⟨"x", none, none⟩, ⟨"y", none, none⟩, ⟨"z", none, none⟩]

/-- `kbFix` as it looks after a failed two-segment run at time 7. -/
def kbFailedFix : KBRow :=
  { kbFix with
    ingestStatus := .failed
    successCount := 0
    failedCount := 2
    updateTime := 7 }

/-- The dedup scenario input: texts `x`, `x`, `y`. -/
def segsXXY : List Segment :=
  [⟨"x", none, none⟩, ⟨"x", none, none⟩, ⟨"y", none, none⟩]

/-- The row the dedup scenario writes for `y` (id 11, chunk index 1). -/
def itemYFix : ItemRow :=
  { itemFix with
    id := 11
    chunkIndex := 1
    originText := "y"
    fts := ["y"]
    updateTime := 5 }

/-- The QA kb row after the dedup run: `succeeded`, one written, two
unwritten. -/
def kbQaDoneFix : KBRow :=
  { kbQaFix with
    successCount := 1
    failedCount := 2
    updateTime := 5 }

/-- A QA item whose origin text is the composed QA text of `q` / `a`. -/
def itemQaFix : ItemRow :=
  { itemFix with
    originText := buildQaText "q" "a"
    question := some "q"
    answer := some "a" }

/-- A database holding the project-1 QA kb and the `q` / `a` QA item. -/
def dbQaDupFix : DB :=
  { kbs := [kbQaFix], items := [itemQaFix], nextKbId := 2, nextItemId := 11 }

/-- A live QA row (id 9) standing for a concurrently committed insert. -/
def kbQaRaceFix : KBRow := { kbQaFix with id := 9 }

/-- A soft-deleted item occupying the `(1, 0)` key slot. -/
def itemDeadFix : ItemRow := { itemFix with isDeleted := 1 }

/-- A database whose only item at key `(1, 0)` is soft-deleted. -/
def dbDeadFix : DB :=
  { kbs := [kbFix], items := [itemDeadFix], nextKbId := 2, nextItemId := 11 }

/-- A fresh chunk targeted at the `(1, 0)` key slot. -/
def chunkFix : Chunk :=
  { chunkIndex := 0
    text := "fresh"
    question := none
    answer := none
    source := none
    date := none
    dense := [2]
    tokens := ["fresh"] }

/-! ## Helper lemmas -/

theorem mem_foldl_idSet (l : List Hit) (acc : List Nat) (x : Nat) :
    (x ∈ l.foldl (fun s r => if s.contains r.id then s else s ++ [r.id]) acc) ↔
      (x ∈ acc ∨ ∃ a ∈ l, a.id = x) := by
  induction l generalizing acc with
  | nil => simp
  | cons h t ih =>
    simp only [List.foldl_cons]
    by_cases hc : acc.contains h.id = true
    · rw [if_pos hc, ih]
      have hmem : h.id ∈ acc := by simpa using hc
      constructor
      · rintro (ha | ⟨a, hat, hax⟩)
        · exact Or.inl ha
        · exact Or.inr ⟨a, List.mem_cons_of_mem _ hat, hax⟩
      · rintro (ha | ⟨a, hat, hax⟩)
        · exact Or.inl ha
        · rcases List.mem_cons.mp hat with rfl | hat2
          · exact Or.inl (hax ▸ hmem)
          · exact Or.inr ⟨a, hat2, hax⟩
    · rw [if_neg hc, ih]
      simp only [List.mem_append, List.mem_singleton]
      constructor
      · rintro ((ha | hax) | ⟨a, hat, hax⟩)
        · exact Or.inl ha
        · exact Or.inr ⟨h, List.mem_cons_self _ _, hax.symm⟩
        · exact Or.inr ⟨a, List.mem_cons_of_mem _ hat, hax⟩
      · rintro (ha | ⟨a, hat, hax⟩)
        · exact Or.inl (Or.inl ha)
        · rcases List.mem_cons.mp hat with rfl | hat2
          · exact Or.inl (Or.inr hax.symm)
          · exact Or.inr ⟨a, hat2, hax⟩

theorem init_le_foldl_max (t : List Nat) : ∀ x : Nat, x ≤ t.foldl Nat.max x := by
  induction t with
  | nil => intro x; exact le_refl x
  | cons a t ih =>
    intro x
    exact le_trans (Nat.le_max_left x a) (ih (Nat.max x a))

theorem le_foldl_max (xs : List Nat) : ∀ x y : Nat, y ∈ x :: xs → y ≤ xs.foldl Nat.max x := by
  induction xs with
  | nil =>
    intro x y hy
    rcases List.mem_cons.mp hy with rfl | h
    · exact le_refl y
    · simp at h
  | cons a t ih =>
    intro x y hy
    simp only [List.foldl_cons]
    rcases List.mem_cons.mp hy with rfl | h
    · exact le_trans (Nat.le_max_left y a) (init_le_foldl_max t (Nat.max y a))
    · rcases List.mem_cons.mp h with rfl | h2
      · exact le_trans (Nat.le_max_right x y) (init_le_foldl_max t (Nat.max x y))
      · exact ih (Nat.max x a) y (List.mem_cons_of_mem _ h2)

theorem foldl_max_mem (x : Nat) (xs : List Nat) : xs.foldl Nat.max x ∈ x :: xs := by
  induction xs generalizing x with
  | nil => simp
  | cons a t ih =>
    simp only [List.foldl_cons]
    rcases List.mem_cons.mp (ih (Nat.max x a)) with h | h
    · rw [h]
      rcases Nat.le_total x a with hle | hle
      · have hm : Nat.max x a = a :=
          Nat.le_antisymm (Nat.max_le.mpr ⟨hle, Nat.le_refl a⟩) (Nat.le_max_right x a)
        rw [hm]; simp
      · have hm : Nat.max x a = x :=
          Nat.le_antisymm (Nat.max_le.mpr ⟨Nat.le_refl x, hle⟩) (Nat.le_max_left x a)
        rw [hm]; simp
    · simp [List.mem_cons_of_mem _ h]

/-- Membership in the kb table after `update_kb_ingest_status`, for rows
hit by the `WHERE` clause: they carry the new status and the clamped
counts. -/
theorem mem_update_status (db : DB) (k p : Nat) (st : IngestStatus)
    (sc fc : Option Int) (now : Nat) (kb : KBRow)
    (h : kb ∈ (update_kb_ingest_status db k p st sc fc now).kbs)
    (hid : kb.id = k) (hpr : kb.projectId = p) (hdel : kb.isDeleted = 0) :
    kb.ingestStatus = st ∧
    (∀ c, sc = some c → kb.successCount = max 0 c) ∧
    (∀ c, fc = some c → kb.failedCount = max 0 c) := by
  simp only [update_kb_ingest_status, List.mem_map] at h
  obtain ⟨a, _, ha⟩ := h
  by_cases hcond : (a.id == k && a.projectId == p && a.isDeleted == 0) = true
  · rw [if_pos hcond] at ha
    subst ha
    refine ⟨rfl, fun c hc => ?_, fun c hc => ?_⟩ <;> subst hc <;> rfl
  · rw [if_neg hcond] at ha
    subst ha
    exact absurd (by simp [hid, hpr, hdel]) hcond

/-- `update_kb_ingest_status` never touches the item table, the id
sequences, or the soft-delete flag of any kb row. -/
theorem update_status_items (db : DB) (k p : Nat) (st : IngestStatus)
    (sc fc : Option Int) (now : Nat) :
    (update_kb_ingest_status db k p st sc fc now).items = db.items := rfl

theorem mem_update_status_isDeleted (db : DB) (k p : Nat) (st : IngestStatus)
    (sc fc : Option Int) (now : Nat) (kb : KBRow)
    (h : kb ∈ (update_kb_ingest_status db k p st sc fc now).kbs) :
    ∃ a ∈ db.kbs, kb.isDeleted = a.isDeleted ∧ kb.id = a.id ∧
      kb.projectId = a.projectId := by
  simp only [update_kb_ingest_status, List.mem_map] at h
  obtain ⟨a, hmem, ha⟩ := h
  refine ⟨a, hmem, ?_⟩
  by_cases hcond : (a.id == k && a.projectId == p && a.isDeleted == 0) = true
  · rw [if_pos hcond] at ha; subst ha; exact ⟨rfl, rfl, rfl⟩
  · rw [if_neg hcond] at ha; subst ha; exact ⟨rfl, rfl, rfl⟩

theorem dedupSegsAux_length_le (segs : List Segment) :
    ∀ seen : List String, (dedupSegsAux seen segs).length ≤ segs.length := by
  induction segs with
  | nil => intro seen; simp [dedupSegsAux]
  | cons c rest ih =>
    intro seen
    rw [dedupSegsAux]
    split
    · exact le_trans (ih seen) (Nat.le_succ _)
    · simpa using ih (c.text :: seen)

theorem dedup_fst_length_le (db : DB) (kbId projectId : Nat)
    (segs : List Segment) :
    (dedup_qa_chunks_by_origin_text db kbId projectId segs).1.length ≤
      segs.length := by
  rw [dedup_qa_chunks_by_origin_text]
  split
  · simp
  · exact le_trans (List.length_filter_le _ _) (dedupSegsAux_length_le segs [])

theorem iterChunksGo_length_le (embed : Embed) (tok : Tok) (ebs : Nat) :
    ∀ (fuel : Nat) (segs : List Segment) (startIdx : Nat),
      (iterChunksGo embed tok ebs fuel segs startIdx).1.length ≤ segs.length := by
  intro fuel
  induction fuel with
  | zero =>
    intro segs startIdx
    match segs with
    | [] => simp [iterChunksGo]
    | _ :: _ => simp [iterChunksGo]
  | succ n ih =>
    intro segs startIdx
    match segs with
    | [] => simp [iterChunksGo]
    | seg :: rest =>
      rw [iterChunksGo]
      cases hemb : embed ((seg :: rest.take (ebs - 1)).map (·.text)) with
      | none => simp
      | some embeddings =>
        simp only
        split
        · simp
        · have hsum : (rest.take (ebs - 1)).length + (rest.drop (ebs - 1)).length
              = rest.length := by
            rw [← List.length_append, List.take_append_drop]
          have htail := ih (rest.drop (ebs - 1))
            (startIdx + (seg :: rest.take (ebs - 1)).length)
          rw [List.length_append, List.length_map, List.enum_length,
            List.length_zip]
          have hmin := Nat.min_le_left (seg :: rest.take (ebs - 1)).length
            embeddings.length
          simp only [List.length_cons, List.length_take, List.length_drop]
            at hsum htail hmin ⊢
          omega

theorem iterProcessedChunks_length_le (embed : Embed) (tok : Tok) (ebs : Nat)
    (segs : List Segment) (startIdx : Nat) :
    (iterProcessedChunks embed tok ebs segs startIdx).1.length ≤ segs.length :=
  iterChunksGo_length_le embed tok ebs segs.length segs startIdx

/-- From a successful pipeline outcome, the number of upserted rows is at
most the number of input segments. -/
theorem ingestPipeline_upserted_le (embed : Embed) (tok : Tok) (ebs : Nat)
    (kbId projectId : Nat) (segments : List Segment) (append dedup : Bool)
    (db : DB) (now : Nat) (done : DB × Nat × Nat)
    (h : ingestPipeline embed tok ebs kbId projectId segments append dedup
      db now = .ok done) :
    done.2.1 ≤ segments.length := by
  unfold ingestPipeline at h
  split at h
  · exact absurd h (by simp)
  · split at h
    · exact absurd h (by simp)
    · rename_i processed heq
      split at h
      · exact absurd h (by simp)
      · rw [← Except.ok.inj h]
        have h1 : (iterProcessedChunks embed tok ebs
            (pipelineSegs kbId projectId segments dedup db).1
            (pipelineStart kbId projectId append db)).1 = processed := by
          rw [heq]
        show processed.length ≤ segments.length
        rw [← h1]
        refine le_trans (iterProcessedChunks_length_le embed tok ebs _ _) ?_
        rw [pipelineSegs]
        split
        · exact dedup_fst_length_le db kbId projectId segments
        · exact le_refl _

/-! ## C2: counts sum to the input count -/

/-- C2: at the end of every ingestion run — successful or failed — every
live knowledge-base row matching the run's kb and project carries
`success_count + failed_count = total_input_count`, the length of the
run's segment list. -/
theorem ingest_counts_sum (embed : Embed) (tok : Tok) (ebs : Nat)
    (kbId projectId : Nat) (segments : List Segment) (append dedup : Bool)
    (db0 : DB) (now : Nat) (kb : KBRow)
    (hmem : kb ∈ (run_kb_ingest_task embed tok ebs kbId projectId segments
      append dedup db0 now).2.kbs)
    (hid : kb.id = kbId) (hpr : kb.projectId = projectId)
    (hdel : kb.isDeleted = 0) :
    kb.successCount + kb.failedCount = (segments.length : Int) := by
  unfold run_kb_ingest_task at hmem
  cases hpipe : ingestPipeline embed tok ebs kbId projectId segments append
      dedup (update_kb_ingest_status db0 kbId projectId .ingesting (some 0)
        (some 0) now) now with
  | error e =>
    rw [hpipe] at hmem
    simp only [] at hmem
    have h := mem_update_status _ _ _ _ _ _ _ _ hmem hid hpr hdel
    have hs := h.2.1 0 rfl
    have hf := h.2.2 ((segments.length : Int)) rfl
    rw [hs, hf, max_eq_right (Int.natCast_nonneg _), max_self]
    omega
  | ok done =>
    rw [hpipe] at hmem
    simp only [] at hmem
    have h := mem_update_status _ _ _ _ _ _ _ _ hmem hid hpr hdel
    have hs := h.2.1 ((done.2.1 : Int)) rfl
    have hf := h.2.2 (max 0 ((segments.length : Int) - (done.2.1 : Int))) rfl
    have hle : done.2.1 ≤ segments.length :=
      ingestPipeline_upserted_le _ _ _ _ _ _ _ _ _ _ _ hpipe
    have hnn : (0 : Int) ≤ (segments.length : Int) - (done.2.1 : Int) := by
      omega
    have h1 : max (0 : Int) ((done.2.1 : Int)) = (done.2.1 : Int) :=
      max_eq_right (Int.natCast_nonneg _)
    have h2 : max (0 : Int) ((segments.length : Int) - (done.2.1 : Int)) =
        (segments.length : Int) - (done.2.1 : Int) := max_eq_right hnn
    rw [hs, hf, h1, h2, h2]
    omega

/-- Witness for C2: the two-batch run whose second embedding batch fails
ends with `success_count + failed_count = 2` on the kb row. -/
theorem ingest_counts_sum_witness :
    (kbFailedFix ∈
      (run_kb_ingest_task embedFailB tokFix 1 1 1 segsABFix false false
        dbIngFix 7).2.kbs) ∧
    kbFailedFix.successCount + kbFailedFix.failedCount =
      (segsABFix.length : Int) :=
  ⟨by decide,
    ingest_counts_sum embedFailB tokFix 1 1 1 segsABFix false false dbIngFix 7
      _ (by decide) rfl rfl rfl⟩

/-! ## C1: durability of a failed run's batches (corrected) -/

/-- Counterexample to C1 as stated: a run over two single-segment
embedding batches (`embedding_batch_size = 1`, `db_upsert_batch_size`
irrelevant) whose first batch is embedded and upserted and whose second
batch's embedding call raises.  The claim asserts the first batch's row
remains durably present after the run returns; in fact the run returns
`(false, _)` and the chunk store afterwards holds no row at all — the
first conjunct shows one chunk had been processed (and hence upserted
inside the open transaction) before the failure, and the last shows the
committed store is empty, because no batch is committed before the final
commit and the exception handler rolls the whole run back. -/
theorem ingest_batch_durability_counterexample :
    (iterProcessedChunks embedFailB tokFix 1 segsABFix 0).1.length = 1 ∧
    (run_kb_ingest_task embedFailB tokFix 1 1 1 segsABFix false false
      dbIngFix 7).1.1 = false ∧
    (run_kb_ingest_task embedFailB tokFix 1 1 1 segsABFix false false
      dbIngFix 7).2.items = [] := by
  refine ⟨by decide, by decide, by decide⟩

/-- C1 (amended): batch upserts of a run are not individually durable —
the whole run's writes live in a single transaction committed only at
the end, so when a run fails after earlier batch upserts those upserts
are rolled back and the chunk store is exactly what it was before the
run; only the status row (handled separately, in its own committed
transactions) changes. -/
theorem failed_run_leaves_items_unchanged (embed : Embed) (tok : Tok)
    (ebs : Nat) (kbId projectId : Nat) (segments : List Segment)
    (append dedup : Bool) (db0 : DB) (now : Nat)
    (hfail : (run_kb_ingest_task embed tok ebs kbId projectId segments
      append dedup db0 now).1.1 = false) :
    (run_kb_ingest_task embed tok ebs kbId projectId segments append dedup
      db0 now).2.items = db0.items := by
  unfold run_kb_ingest_task at hfail ⊢
  cases hpipe : ingestPipeline embed tok ebs kbId projectId segments append
      dedup (update_kb_ingest_status db0 kbId projectId .ingesting (some 0)
        (some 0) now) now with
  | error e => rfl
  | ok done =>
    rw [hpipe] at hfail
    simp at hfail

/-- Witness for the amended C1: the failing two-batch run leaves the
chunk store exactly as before the run. -/
theorem failed_run_leaves_items_unchanged_witness :
    ((run_kb_ingest_task embedFailB tokFix 1 1 1 segsABFix false false
      dbIngFix 7).1.1 = false) ∧
    (run_kb_ingest_task embedFailB tokFix 1 1 1 segsABFix false false
      dbIngFix 7).2.items = dbIngFix.items :=
  ⟨by decide,
    failed_run_leaves_items_unchanged embedFailB tokFix 1 1 1 segsABFix
      false false dbIngFix 7 (by decide)⟩

/-! ## C7: exception boundary of the run -/

/-- C7: whenever the pipeline of an ingestion run raises (mismatched
embedding counts included), the run rolls the in-flight transaction back
(the chunk store is untouched), best-effort sets every live matching
kb row to `failed` with `success_count = 0` and
`failed_count = total_input_count`, and returns `(false, message)`
instead of raising — the model function is total, so nothing escapes the
boundary. -/
theorem ingest_exception_boundary (embed : Embed) (tok : Tok) (ebs : Nat)
    (kbId projectId : Nat) (segments : List Segment) (append dedup : Bool)
    (db0 : DB) (now : Nat) (e : String)
    (herr : ingestPipeline embed tok ebs kbId projectId segments append dedup
      (update_kb_ingest_status db0 kbId projectId .ingesting (some 0) (some 0)
        now) now = .error e) :
    (run_kb_ingest_task embed tok ebs kbId projectId segments append dedup
        db0 now).1 =
      (false, s!"Knowledge base ingestion failed (kb_id={kbId}): {e}") ∧
    (run_kb_ingest_task embed tok ebs kbId projectId segments append dedup
        db0 now).2.items = db0.items ∧
    ∀ kb ∈ (run_kb_ingest_task embed tok ebs kbId projectId segments append
        dedup db0 now).2.kbs,
      kb.id = kbId → kb.projectId = projectId → kb.isDeleted = 0 →
        kb.ingestStatus = .failed ∧ kb.successCount = 0 ∧
          kb.failedCount = (segments.length : Int) := by
  unfold run_kb_ingest_task
  rw [herr]
  refine ⟨rfl, rfl, ?_⟩
  intro kb hmem hid hpr hdel
  have h := mem_update_status _ _ _ _ _ _ _ _ hmem hid hpr hdel
  refine ⟨h.1, by simpa using h.2.1 0 rfl, ?_⟩
  have hf := h.2.2 ((segments.length : Int)) rfl
  rw [hf, max_eq_right (Int.natCast_nonneg _)]

/-- Witness for C7: the spec's own scenario — the embedding collaborator
returns 2 vectors for 3 inputs; the pipeline raises the count-mismatch
error, the run returns `(false, message)`, and no item row is written. -/
theorem ingest_exception_boundary_witness :
    (ingestPipeline embedTwo tokFix 10 1 1 segs3Fix false false
        (update_kb_ingest_status dbIngFix 1 1 .ingesting (some 0) (some 0) 9)
        9 = .error "Embedding count mismatch: got 2, expected 3") ∧
    (run_kb_ingest_task embedTwo tokFix 10 1 1 segs3Fix false false dbIngFix
        9).1 = (false,
      "Knowledge base ingestion failed (kb_id=1): Embedding count mismatch: got 2, expected 3") ∧
    (run_kb_ingest_task embedTwo tokFix 10 1 1 segs3Fix false false dbIngFix
        9).2.items = [] :=
  ⟨rfl,
    (ingest_exception_boundary embedTwo tokFix 10 1 1 segs3Fix false false
      dbIngFix 9 "Embedding count mismatch: got 2, expected 3" rfl).1,
    (ingest_exception_boundary embedTwo tokFix 10 1 1 segs3Fix false false
      dbIngFix 9 "Embedding count mismatch: got 2, expected 3" rfl).2.1⟩

/-! ## C6: hybrid merge -/

/-- C6: for every pair of result lists coming out of the dense and the
lexical branch, the merged hybrid-retrieval result is the dense hits in
their original order followed by exactly those lexical hits whose id does
not occur among the dense hits, in their original order; in particular
dense `[A,B]` and lexical `[B,C]` merge to `[A,B,C]`. -/
theorem hybrid_merge_spec :
    (∀ denseResults bm25Results : List Hit,
      retrieve_hybrid_merged denseResults bm25Results =
        denseResults ++ bm25Results.filter
          (fun r => decide (r.id ∉ denseResults.map Hit.id))) ∧
    retrieve_hybrid_merged
        [⟨1, "A", none, none, 0⟩, ⟨2, "B", none, none, 0⟩]
        [⟨2, "B", none, none, 0⟩, ⟨3, "C", none, none, 0⟩] =
      [⟨1, "A", none, none, 0⟩, ⟨2, "B", none, none, 0⟩, ⟨3, "C", none, none, 0⟩] := by
  constructor
  · intro dense lex
    have hdef : retrieve_hybrid_merged dense lex =
        dense ++ lex.filter (fun r =>
          !(dense.foldl (fun s h => if s.contains h.id then s else s ++ [h.id])
              []).contains r.id) := rfl
    rw [hdef]
    congr 1
    apply List.filter_congr
    intro r _
    have hiff := mem_foldl_idSet dense [] r.id
    simp only [List.not_mem_nil, false_or] at hiff
    by_cases hin : r.id ∈ dense.map Hit.id
    · have h1 : r.id ∈ dense.foldl
          (fun s h => if s.contains h.id then s else s ++ [h.id]) [] :=
        hiff.mpr (by simpa [List.mem_map, eq_comm] using hin)
      simp [hin]
      simpa using h1
    · have h1 : r.id ∉ dense.foldl
          (fun s h => if s.contains h.id then s else s ++ [h.id]) [] := by
        intro hmem
        exact hin (by simpa [List.mem_map, eq_comm] using hiff.mp hmem)
      simp [hin]
      simpa using h1
  · decide

/-! ## C8: next chunk index -/

/-- C8: `get_next_chunk_index` is one plus the maximum existing chunk
index of the kb, computed over deleted and non-deleted rows alike, and 0
when the kb has no rows: every existing row's index is strictly below the
returned value, the value is 0 when the kb has no rows, and otherwise it
is exactly one plus the index of some existing row. -/
theorem next_chunk_index_spec (db : DB) (kbId projectId : Nat) :
    (∀ it ∈ db.items, it.kbId = kbId → it.projectId = projectId →
      it.chunkIndex < get_next_chunk_index db kbId projectId) ∧
    ((∀ it ∈ db.items, ¬(it.kbId = kbId ∧ it.projectId = projectId)) →
      get_next_chunk_index db kbId projectId = 0) ∧
    (get_next_chunk_index db kbId projectId = 0 ∨
      ∃ it ∈ db.items, it.kbId = kbId ∧ it.projectId = projectId ∧
        it.chunkIndex + 1 = get_next_chunk_index db kbId projectId) := by
  rcases hl : (db.items.filter
      (fun it => it.kbId == kbId && it.projectId == projectId)).map
      (·.chunkIndex) with _ | ⟨x, xs⟩
  · refine ⟨?_, ?_, ?_⟩
    · intro it hmem hkb hpr
      exfalso
      have : it.chunkIndex ∈ (db.items.filter
          (fun it => it.kbId == kbId && it.projectId == projectId)).map
          (·.chunkIndex) := by
        exact List.mem_map_of_mem _ (List.mem_filter.mpr ⟨hmem, by simp [hkb, hpr]⟩)
      rw [hl] at this
      exact List.not_mem_nil _ this
    · intro _
      simp [get_next_chunk_index, hl]
    · left
      simp [get_next_chunk_index, hl]
  · have hval : get_next_chunk_index db kbId projectId = xs.foldl Nat.max x + 1 := by
      simp [get_next_chunk_index, hl]
    refine ⟨?_, ?_, ?_⟩
    · intro it hmem hkb hpr
      have hm : it.chunkIndex ∈ (db.items.filter
          (fun it => it.kbId == kbId && it.projectId == projectId)).map
          (·.chunkIndex) :=
        List.mem_map_of_mem _ (List.mem_filter.mpr ⟨hmem, by simp [hkb, hpr]⟩)
      rw [hl] at hm
      rw [hval]
      exact Nat.lt_succ_of_le (le_foldl_max xs x it.chunkIndex hm)
    · intro hnone
      exfalso
      have hx : x ∈ (db.items.filter
          (fun it => it.kbId == kbId && it.projectId == projectId)).map
          (·.chunkIndex) := by
        rw [hl]; exact List.mem_cons_self _ _
      obtain ⟨it, hitf, hitx⟩ := List.mem_map.mp hx
      obtain ⟨hitmem, hitp⟩ := List.mem_filter.mp hitf
      simp only [Bool.and_eq_true, beq_iff_eq] at hitp
      exact hnone it hitmem ⟨hitp.1, hitp.2⟩
    · right
      have hx : xs.foldl Nat.max x ∈ (db.items.filter
          (fun it => it.kbId == kbId && it.projectId == projectId)).map
          (·.chunkIndex) := by
        rw [hl]; exact foldl_max_mem x xs
      obtain ⟨it, hitf, hitx⟩ := List.mem_map.mp hx
      obtain ⟨hitmem, hitp⟩ := List.mem_filter.mp hitf
      simp only [Bool.and_eq_true, beq_iff_eq] at hitp
      exact ⟨it, hitmem, hitp.1, hitp.2, by rw [hval, hitx]⟩

/-- Witness for C8: on the fixture database — one live item at chunk
index 0 and one soft-deleted item at chunk index 4, both of kb 1 — the
next chunk index is 5, strictly above the deleted row's index 4. -/
theorem next_chunk_index_spec_witness :
    (itemDelFix ∈ dbFix.items ∧ itemDelFix.kbId = 1 ∧
      itemDelFix.projectId = 1 ∧ itemDelFix.isDeleted = 1) ∧
    itemDelFix.chunkIndex < get_next_chunk_index dbFix 1 1 ∧
    get_next_chunk_index dbFix 1 1 = 5 :=
  ⟨by decide,
    (next_chunk_index_spec dbFix 1 1).1 itemDelFix (by decide) rfl rfl,
    by decide⟩

/-! ## C9: dedup scenario -/

/-- C9: with dedup enabled and texts `["x","x","y"]` where `x` already
exists non-deleted in the kb, the within-batch step keeps the first `x`
and drops the second, the store lookup drops `x` entirely, the skip
count is 2, and the run writes exactly one row — the one for `y` — and
ends `succeeded` with `success_count = 1` and two unwritten inputs
(`failed_count = 2`). -/
theorem dedup_run_spec :
    dedupSegsAux [] segsXXY = [⟨"x", none, none⟩, ⟨"y", none, none⟩] ∧
    pipelineSegs 1 1 segsXXY true dbQaFix = ([⟨"y", none, none⟩], 2) ∧
    (run_kb_ingest_task embedOk tokFix 10 1 1 segsXXY true true
      dbQaFix 5).1.1 = true ∧
    (run_kb_ingest_task embedOk tokFix 10 1 1 segsXXY true true
      dbQaFix 5).2.items = [itemFix, itemYFix] ∧
    (run_kb_ingest_task embedOk tokFix 10 1 1 segsXXY true true
      dbQaFix 5).2.kbs = [kbQaDoneFix] := by
  refine ⟨by decide, by decide, by decide, by decide, by decide⟩

/-! ## C10: duplicate single QA item is skipped -/

theorem getOrCreate_existing (db : DB) (projectId k : Nat)
    (race : Option KBRow) (now : Nat)
    (h : get_project_qa_kb_id db projectId = some k) :
    get_or_create_project_qa_kb_id db projectId race now = (some k, db) := by
  unfold get_or_create_project_qa_kb_id
  rw [h]

theorem mem_get_existing_origin_texts (db : DB) (kbId projectId : Nat)
    (originTexts : List String) (x : String) :
    x ∈ get_existing_origin_texts db kbId projectId originTexts ↔
      ∃ it ∈ db.items, it.kbId = kbId ∧ it.projectId = projectId ∧
        it.isDeleted = 0 ∧ it.originText ∈ originTexts ∧
        it.originText = x := by
  unfold get_existing_origin_texts
  split
  · rename_i hempty
    rw [List.isEmpty_iff] at hempty
    subst hempty
    simp
  · constructor
    · intro hx
      obtain ⟨it, hitf, hitx⟩ := List.mem_map.mp hx
      obtain ⟨hitmem, hitp⟩ := List.mem_filter.mp hitf
      simp only [Bool.and_eq_true, beq_iff_eq] at hitp
      refine ⟨it, hitmem, hitp.1.1.1, hitp.1.1.2, hitp.1.2, ?_, hitx⟩
      simpa using hitp.2
    · rintro ⟨it, hitmem, h1, h2, h3, h4, h5⟩
      refine List.mem_map.mpr ⟨it, List.mem_filter.mpr ⟨hitmem, ?_⟩, h5⟩
      simp only [Bool.and_eq_true, beq_iff_eq]
      exact ⟨⟨⟨h1, h2⟩, h3⟩, by simpa using h4⟩

/-- C10: when the composed QA text of the (stripped) question/answer
pair already exists non-deleted in the project's QA knowledge base,
`add_single_qa_item` writes no new item row, sets the kb status back to
`succeeded`, and returns a skip result with reason
`duplicate_origin_text` and null item id / chunk index. -/
theorem add_qa_duplicate_skip (embed : Embed) (tok : Tok) (projectId : Nat)
    (question answer : String) (db0 : DB) (now : Nat) (kbId : Nat)
    (hq : (pyStrip question).isEmpty = false)
    (ha : (pyStrip answer).isEmpty = false)
    (hkb : get_project_qa_kb_id db0 projectId = some kbId)
    (hdup : ∃ it ∈ db0.items, it.kbId = kbId ∧ it.projectId = projectId ∧
      it.isDeleted = 0 ∧
      it.originText = buildQaText (pyStrip question) (pyStrip answer)) :
    (add_single_qa_item embed tok projectId question answer db0 none now).1 =
      .ok { kbId := kbId, itemId := none, chunkIndex := none
            skipped := true, reason := some "duplicate_origin_text" } ∧
    (add_single_qa_item embed tok projectId question answer db0 none
      now).2.items = db0.items ∧
    ∀ kb ∈ (add_single_qa_item embed tok projectId question answer db0 none
        now).2.kbs,
      kb.id = kbId → kb.projectId = projectId → kb.isDeleted = 0 →
        kb.ingestStatus = .succeeded := by
  have hmemEx : buildQaText (pyStrip question) (pyStrip answer) ∈
      get_existing_origin_texts
        (update_kb_ingest_status db0 kbId projectId .ingesting none none now)
        kbId projectId [buildQaText (pyStrip question) (pyStrip answer)] := by
    rw [mem_get_existing_origin_texts]
    obtain ⟨it, hitmem, h1, h2, h3, h4⟩ := hdup
    exact ⟨it, hitmem, h1, h2, h3, by simp [h4], h4⟩
  have hcontains : (get_existing_origin_texts
      (update_kb_ingest_status db0 kbId projectId .ingesting none none now)
      kbId projectId
      [buildQaText (pyStrip question) (pyStrip answer)]).contains
        (buildQaText (pyStrip question) (pyStrip answer)) = true := by
    simpa using hmemEx
  refine ⟨?_, ?_, ?_⟩
  · simp [add_single_qa_item, hq, ha,
      getOrCreate_existing db0 projectId kbId none now hkb, hcontains, hmemEx]
  · simp [add_single_qa_item, hq, ha,
      getOrCreate_existing db0 projectId kbId none now hkb, hcontains, hmemEx]
    rfl
  · intro kb hmem hid hpr hdel
    have hmem2 : kb ∈ (update_kb_ingest_status
        (update_kb_ingest_status db0 kbId projectId .ingesting none none now)
        kbId projectId .succeeded none none now).kbs := by
      simpa [add_single_qa_item, hq, ha,
        getOrCreate_existing db0 projectId kbId none now hkb, hcontains, hmemEx]
        using hmem
    exact (mem_update_status _ _ _ _ _ _ _ _ hmem2 hid hpr hdel).1

/-- Witness for C10: adding `" q "` / `"a"` to a project whose QA kb
already holds the composed text of `q` / `a` is skipped with
`duplicate_origin_text`, writing nothing. -/
theorem add_qa_duplicate_skip_witness :
    (get_project_qa_kb_id dbQaDupFix 1 = some 1) ∧
    ((add_single_qa_item embedOk tokFix 1 " q " "a" dbQaDupFix none 8).1 =
      .ok { kbId := 1, itemId := none, chunkIndex := none
            skipped := true, reason := some "duplicate_origin_text" }) ∧
    (add_single_qa_item embedOk tokFix 1 " q " "a" dbQaDupFix none
      8).2.items = dbQaDupFix.items :=
  ⟨rfl,
    (add_qa_duplicate_skip embedOk tokFix 1 " q " "a" dbQaDupFix 8 1
      (by decide) (by decide) rfl (by decide)).1,
    (add_qa_duplicate_skip embedOk tokFix 1 " q " "a" dbQaDupFix 8 1
      (by decide) (by decide) rfl (by decide)).2.1⟩

/-! ## C4: singleton QA knowledge base get-or-create -/

theorem get_qa_none_iff (db : DB) (projectId : Nat) :
    get_project_qa_kb_id db projectId = none ↔
      db.kbs.filter (isLiveQaKb projectId) = [] := by
  unfold get_project_qa_kb_id
  cases h : db.kbs.filter (isLiveQaKb projectId) with
  | nil => simp [minNat?]
  | cons a t => simp [minNat?]

theorem get_qa_singleton (db : DB) (projectId : Nat) (r : KBRow)
    (h : db.kbs.filter (isLiveQaKb projectId) = [r]) :
    get_project_qa_kb_id db projectId = some r.id := by
  unfold get_project_qa_kb_id
  rw [h]
  rfl

theorem getOrCreate_none_none (db : DB) (projectId now : Nat)
    (hnone : get_project_qa_kb_id db projectId = none) :
    get_or_create_project_qa_kb_id db projectId none now =
      (some db.nextKbId,
        { db with
          kbs := db.kbs ++ [newQaRow db.nextKbId projectId now]
          nextKbId := db.nextKbId + 1 }) := by
  have hfil := (get_qa_none_iff db projectId).mp hnone
  simp [get_or_create_project_qa_kb_id, hnone, hfil, create_kb, newQaRow]

theorem getOrCreate_race_live (db : DB) (projectId now : Nat) (r : KBRow)
    (hnone : get_project_qa_kb_id db projectId = none)
    (hlive : isLiveQaKb projectId r = true) :
    get_or_create_project_qa_kb_id db projectId (some r) now =
      (some r.id, { db with kbs := db.kbs ++ [r] }) := by
  have hfil := (get_qa_none_iff db projectId).mp hnone
  have hfil2 : (db.kbs ++ [r]).filter (isLiveQaKb projectId) = [r] := by
    simp [List.filter_append, hfil, hlive]
  have hget2 : get_project_qa_kb_id { db with kbs := db.kbs ++ [r] }
      projectId = some r.id := by
    unfold get_project_qa_kb_id
    simp only [hfil2]
    rfl
  simp [get_or_create_project_qa_kb_id, hnone, hfil2, hget2]

theorem getOrCreate_race_dead (db : DB) (projectId now : Nat) (r : KBRow)
    (hnone : get_project_qa_kb_id db projectId = none)
    (hdead : isLiveQaKb projectId r = false) :
    get_or_create_project_qa_kb_id db projectId (some r) now =
      (some db.nextKbId,
        { db with
          kbs := (db.kbs ++ [r]) ++ [newQaRow db.nextKbId projectId now]
          nextKbId := db.nextKbId + 1 }) := by
  have hfil := (get_qa_none_iff db projectId).mp hnone
  have hfil2 : (db.kbs ++ [r]).filter (isLiveQaKb projectId) = [] := by
    simp [List.filter_append, hfil, hdead]
  simp [get_or_create_project_qa_kb_id, hnone, hfil2, create_kb, newQaRow]

/-- C4: `get_or_create_project_qa_kb_id` is idempotent from the caller's
perspective: (i) a live QA kb of the project is returned as-is; (ii) with
none present and no interleaved insert it creates one with ingest status
`succeeded`; (iii) when a concurrently committed live QA row makes the
insert hit the partial unique index, the re-query returns that row's id
instead of propagating the `IntegrityError`; (iv) it never grows the set
of live QA rows of the project beyond one; (v) an immediately repeated
call returns the same id. -/
theorem get_or_create_qa_kb_spec (db : DB) (projectId : Nat)
    (race : Option KBRow) (now now2 : Nat) :
    (∀ k, get_project_qa_kb_id db projectId = some k →
      get_or_create_project_qa_kb_id db projectId race now = (some k, db)) ∧
    (get_project_qa_kb_id db projectId = none → race = none →
      get_or_create_project_qa_kb_id db projectId race now =
        (some db.nextKbId,
          { db with
            kbs := db.kbs ++ [newQaRow db.nextKbId projectId now]
            nextKbId := db.nextKbId + 1 })) ∧
    (∀ r, get_project_qa_kb_id db projectId = none → race = some r →
      isLiveQaKb projectId r = true →
      (get_or_create_project_qa_kb_id db projectId race now).1 = some r.id) ∧
    ((db.kbs.filter (isLiveQaKb projectId)).length ≤ 1 →
      ((get_or_create_project_qa_kb_id db projectId race now).2.kbs.filter
        (isLiveQaKb projectId)).length ≤ 1) ∧
    ((get_or_create_project_qa_kb_id
        (get_or_create_project_qa_kb_id db projectId race now).2 projectId
        none now2).1 =
      (get_or_create_project_qa_kb_id db projectId race now).1) := by
  refine ⟨?_, ?_, ?_, ?_, ?_⟩
  · intro k hk
    exact getOrCreate_existing db projectId k race now hk
  · intro hnone hrace
    subst hrace
    exact getOrCreate_none_none db projectId now hnone
  · intro r hnone hrace hlive
    subst hrace
    rw [getOrCreate_race_live db projectId now r hnone hlive]
  · intro hle
    cases hget : get_project_qa_kb_id db projectId with
    | some k =>
      rw [getOrCreate_existing db projectId k race now hget]
      exact hle
    | none =>
      have hfil := (get_qa_none_iff db projectId).mp hget
      cases race with
      | none =>
        rw [getOrCreate_none_none db projectId now hget]
        simp [List.filter_append, hfil, newQaRow, isLiveQaKb]
      | some r =>
        cases hlive : isLiveQaKb projectId r with
        | true =>
          rw [getOrCreate_race_live db projectId now r hget hlive]
          simp [List.filter_append, hfil, hlive]
        | false =>
          rw [getOrCreate_race_dead db projectId now r hget hlive]
          have hnew : isLiveQaKb projectId
              (newQaRow db.nextKbId projectId now) = true := by
            simp [isLiveQaKb, newQaRow]
          simp [List.filter_append, hfil, hlive, hnew]
  · cases hget : get_project_qa_kb_id db projectId with
    | some k =>
      rw [getOrCreate_existing db projectId k race now hget,
        getOrCreate_existing db projectId k none now2 hget]
    | none =>
      have hfil := (get_qa_none_iff db projectId).mp hget
      cases race with
      | none =>
        rw [getOrCreate_none_none db projectId now hget]
        have hfil2 : (db.kbs ++ [newQaRow db.nextKbId projectId now]).filter
            (isLiveQaKb projectId) = [newQaRow db.nextKbId projectId now] := by
          simp [List.filter_append, hfil, newQaRow, isLiveQaKb]
        have hget2 : get_project_qa_kb_id
            { db with
              kbs := db.kbs ++ [newQaRow db.nextKbId projectId now]
              nextKbId := db.nextKbId + 1 } projectId = some db.nextKbId := by
          unfold get_project_qa_kb_id
          simp only [hfil2]
          rfl
        rw [getOrCreate_existing _ projectId db.nextKbId none now2 hget2]
      | some r =>
        cases hlive : isLiveQaKb projectId r with
        | true =>
          rw [getOrCreate_race_live db projectId now r hget hlive]
          have hfil2 : (db.kbs ++ [r]).filter (isLiveQaKb projectId) = [r] := by
            simp [List.filter_append, hfil, hlive]
          have hget2 : get_project_qa_kb_id { db with kbs := db.kbs ++ [r] }
              projectId = some r.id := by
            unfold get_project_qa_kb_id
            simp only [hfil2]
            rfl
          rw [getOrCreate_existing _ projectId r.id none now2 hget2]
        | false =>
          rw [getOrCreate_race_dead db projectId now r hget hlive]
          have hnew : isLiveQaKb projectId
              (newQaRow db.nextKbId projectId now) = true := by
            simp [isLiveQaKb, newQaRow]
          have hfil2 : ((db.kbs ++ [r]) ++ [newQaRow db.nextKbId projectId
              now]).filter (isLiveQaKb projectId) =
              [newQaRow db.nextKbId projectId now] := by
            simp [List.filter_append, hfil, hlive, hnew]
          have hget2 : get_project_qa_kb_id
              { db with
                kbs := (db.kbs ++ [r]) ++ [newQaRow db.nextKbId projectId now]
                nextKbId := db.nextKbId + 1 } projectId =
              some db.nextKbId := by
            unfold get_project_qa_kb_id
            simp only [hfil2]
            rfl
          rw [getOrCreate_existing _ projectId db.nextKbId none now2 hget2]

/-- Witness for C4: on the fixtures — an existing QA kb is returned
unchanged; a project without one gets a fresh `succeeded` QA kb; a
concurrently committed row (id 9) is returned instead of an error. -/
theorem get_or_create_qa_kb_spec_witness :
    (get_project_qa_kb_id dbQaFix 1 = some 1 ∧
      get_or_create_project_qa_kb_id dbQaFix 1 none 3 = (some 1, dbQaFix)) ∧
    (get_project_qa_kb_id dbIngFix 1 = none ∧
      (get_or_create_project_qa_kb_id dbIngFix 1 none 3).1 = some 2) ∧
    (isLiveQaKb 1 kbQaRaceFix = true ∧
      (get_or_create_project_qa_kb_id dbIngFix 1 (some kbQaRaceFix) 3).1 =
        some 9) :=
  ⟨⟨rfl, (get_or_create_qa_kb_spec dbQaFix 1 none 3 4).1 1 rfl⟩,
    ⟨rfl, by
      rw [(get_or_create_qa_kb_spec dbIngFix 1 none 3 4).2.1 rfl rfl]
      rfl⟩,
    ⟨rfl, (get_or_create_qa_kb_spec dbIngFix 1 (some kbQaRaceFix) 3 4).2.2.1
      kbQaRaceFix rfl rfl rfl⟩⟩

/-! ## C5: reason-coded soft delete -/

/-- C5: `soft_delete_kb_and_chunks` applies its checks in the order
not-found → already-deleted → QA-forbidden → ingesting-forbidden →
deletion and reports exactly one reason code of the closed enumeration;
every outcome other than `deleted` returns `kb_deleted = false` and
`item_deleted_count = 0` with the database unchanged, and an eligible kb
is soft-deleted together with all of its live items, with
`item_deleted_count` equal to the number of its previously non-deleted
items.  The `Nodup` hypothesis states primary-key uniqueness of kb ids,
under which the source's `one_or_none` read cannot raise. -/
theorem soft_delete_spec (db : DB) (kbId projectId : Nat)
    (forbidQa forbidIng : Bool) (now : Nat)
    (_hpk : (db.kbs.map KBRow.id).Nodup) :
    (db.kbs.find? (fun kb => kb.id == kbId && kb.projectId == projectId) =
        none →
      soft_delete_kb_and_chunks db kbId projectId forbidQa forbidIng now =
        ({ kbId := kbId, projectId := projectId, kbDeleted := false
           itemDeletedCount := 0, reason := .notFound }, db)) ∧
    (∀ row, db.kbs.find? (fun kb => kb.id == kbId &&
        kb.projectId == projectId) = some row →
      (row.isDeleted ≠ 0 →
        soft_delete_kb_and_chunks db kbId projectId forbidQa forbidIng now =
          ({ kbId := kbId, projectId := projectId, kbDeleted := false
             itemDeletedCount := 0, reason := .alreadyDeleted }, db)) ∧
      (row.isDeleted = 0 → (forbidQa && row.qaItems) = true →
        soft_delete_kb_and_chunks db kbId projectId forbidQa forbidIng now =
          ({ kbId := kbId, projectId := projectId, kbDeleted := false
             itemDeletedCount := 0, reason := .qaKbForbidden }, db)) ∧
      (row.isDeleted = 0 → (forbidQa && row.qaItems) = false →
        (forbidIng && (row.ingestStatus == .ingesting)) = true →
        soft_delete_kb_and_chunks db kbId projectId forbidQa forbidIng now =
          ({ kbId := kbId, projectId := projectId, kbDeleted := false
             itemDeletedCount := 0, reason := .ingestingForbidden }, db)) ∧
      (row.isDeleted = 0 → (forbidQa && row.qaItems) = false →
        (forbidIng && (row.ingestStatus == .ingesting)) = false →
        ((soft_delete_kb_and_chunks db kbId projectId forbidQa forbidIng
            now).1 =
          { kbId := kbId, projectId := projectId, kbDeleted := true
            itemDeletedCount := (db.items.filter (fun it =>
              it.kbId == kbId && it.projectId == projectId &&
              it.isDeleted == 0)).length
            reason := .deleted }) ∧
        (∀ kb ∈ (soft_delete_kb_and_chunks db kbId projectId forbidQa
            forbidIng now).2.kbs,
          kb.id = kbId → kb.projectId = projectId → kb.isDeleted ≠ 0) ∧
        (∀ it ∈ (soft_delete_kb_and_chunks db kbId projectId forbidQa
            forbidIng now).2.items,
          it.kbId = kbId → it.projectId = projectId → it.isDeleted ≠ 0))) := by
  constructor
  · intro hfind
    unfold soft_delete_kb_and_chunks
    rw [hfind]
  · intro row hfind
    have hrowmem : row ∈ db.kbs := List.mem_of_find?_eq_some hfind
    have hrowp := List.find?_some hfind
    simp only [Bool.and_eq_true, beq_iff_eq] at hrowp
    refine ⟨?_, ?_, ?_, ?_⟩
    · intro hdel
      unfold soft_delete_kb_and_chunks
      rw [hfind]
      simp only []
      rw [if_pos (by simpa using hdel)]
    · intro hdel hqa
      unfold soft_delete_kb_and_chunks
      rw [hfind]
      simp only []
      rw [if_neg (by simp [hdel]), if_pos hqa]
    · intro hdel hqa hing
      unfold soft_delete_kb_and_chunks
      rw [hfind]
      simp only []
      rw [if_neg (by simp [hdel]), if_neg (by simp [hqa]), if_pos hing]
    · intro hdel hqa hing
      have hkbhit : row ∈ db.kbs.filter (fun kb =>
          kb.id == kbId && kb.projectId == projectId && kb.isDeleted == 0) :=
        List.mem_filter.mpr ⟨hrowmem, by simp [hrowp.1, hrowp.2, hdel]⟩
      have hpos : 0 < (db.kbs.filter (fun kb =>
          kb.id == kbId && kb.projectId == projectId &&
          kb.isDeleted == 0)).length :=
        List.length_pos_of_mem hkbhit
      have hdec : decide (0 < (db.kbs.filter (fun kb =>
          kb.id == kbId && kb.projectId == projectId &&
          kb.isDeleted == 0)).length) = true := decide_eq_true hpos
      unfold soft_delete_kb_and_chunks
      rw [hfind]
      simp only []
      rw [if_neg (by simp [hdel]), if_neg (by simp [hqa]),
        if_neg (by simp [hing])]
      refine ⟨by simp [hdec], ?_, ?_⟩
      · intro kb hmem hid hpr
        simp only [List.mem_map] at hmem
        obtain ⟨a, hamem, ha⟩ := hmem
        by_cases hcond : (a.id == kbId && a.projectId == projectId &&
            a.isDeleted == 0) = true
        · rw [if_pos hcond] at ha
          rw [← ha]
          simp
        · rw [if_neg hcond] at ha
          rw [← ha] at hid hpr ⊢
          simp only [hid, hpr] at hcond
          simpa using hcond
      · intro it hmem hid hpr
        simp only [List.mem_map] at hmem
        obtain ⟨a, hamem, ha⟩ := hmem
        by_cases hcond : (a.kbId == kbId && a.projectId == projectId &&
            a.isDeleted == 0) = true
        · rw [if_pos hcond] at ha
          rw [← ha]
          simp
        · rw [if_neg hcond] at ha
          rw [← ha] at hid hpr ⊢
          simp only [hid, hpr] at hcond
          simpa using hcond

/-- Witness for C5: on the fixtures, deleting the live non-QA kb 1
(one live item, one already-deleted item) yields `deleted` with
`item_deleted_count = 1`; deleting the unknown kb 5 yields `not_found`
unchanged; deleting the QA kb yields `qa_kb_forbidden` unchanged. -/
theorem soft_delete_spec_witness :
    ((soft_delete_kb_and_chunks dbFix 1 1 true true 4).1 =
      { kbId := 1, projectId := 1, kbDeleted := true
        itemDeletedCount := 1, reason := .deleted }) ∧
    (soft_delete_kb_and_chunks dbFix 5 1 true true 4 =
      ({ kbId := 5, projectId := 1, kbDeleted := false
         itemDeletedCount := 0, reason := .notFound }, dbFix)) ∧
    (soft_delete_kb_and_chunks dbQaFix 1 1 true true 4 =
      ({ kbId := 1, projectId := 1, kbDeleted := false
         itemDeletedCount := 0, reason := .qaKbForbidden }, dbQaFix)) :=
  ⟨((soft_delete_spec dbFix 1 1 true true 4 (by decide)).2 kbFix
      rfl).2.2.2 rfl rfl rfl |>.1,
    (soft_delete_spec dbFix 5 1 true true 4 (by decide)).1 rfl,
    ((soft_delete_spec dbQaFix 1 1 true true 4 (by decide)).2 kbQaFix
      rfl).2.1 rfl rfl⟩

/-! ## C3: idempotent batched upsert -/

theorem upsertOne_values (db : DB) (kbId projectId : Nat) (c : Chunk)
    (now : Nat) (it : ItemRow)
    (hmem : it ∈ (upsertOne db kbId projectId c now).items)
    (hkb : it.kbId = kbId) (hci : it.chunkIndex = c.chunkIndex) :
    it.originText = c.text ∧ it.question = c.question ∧
    it.answer = c.answer ∧ it.source = c.source ∧ it.date = c.date ∧
    it.embedding = c.dense ∧ it.fts = c.tokens ∧
    it.projectId = projectId ∧ it.isDeleted = 0 ∧ it.updateTime = now := by
  unfold upsertOne at hmem
  by_cases hany : db.items.any (keyMatch kbId c.chunkIndex) = true
  · rw [if_pos hany] at hmem
    simp only [List.mem_map] at hmem
    obtain ⟨a, hamem, ha⟩ := hmem
    by_cases hkey : keyMatch kbId c.chunkIndex a = true
    · rw [if_pos hkey] at ha
      rw [← ha]
      exact ⟨rfl, rfl, rfl, rfl, rfl, rfl, rfl, rfl, rfl, rfl⟩
    · rw [if_neg hkey] at ha
      rw [← ha] at hkb hci
      exact absurd (by simp [keyMatch, hkb, hci]) hkey
  · rw [if_neg hany] at hmem
    simp only [List.mem_append, List.mem_singleton] at hmem
    rcases hmem with hold | hnew
    · exfalso
      exact hany (List.any_eq_true.mpr ⟨it, hold, by simp [keyMatch, hkb, hci]⟩)
    · rw [hnew]
      exact ⟨rfl, rfl, rfl, rfl, rfl, rfl, rfl, rfl, rfl, rfl⟩

theorem upsertOne_filter_other (db : DB) (kbId projectId : Nat) (c : Chunk)
    (now : Nat) (k ci : Nat) (hne : ¬(k = kbId ∧ ci = c.chunkIndex)) :
    (upsertOne db kbId projectId c now).items.filter (keyMatch k ci) =
      db.items.filter (keyMatch k ci) := by
  unfold upsertOne
  split
  · show (db.items.map _).filter _ = _
    rw [List.filter_map]
    have hstep : (db.items.filter
        (keyMatch k ci ∘ fun it =>
          if keyMatch kbId c.chunkIndex it then
            { it with
              originText := c.text, source := c.source, date := c.date
              question := c.question, answer := c.answer
              embedding := c.dense, fts := c.tokens
              projectId := projectId, isDeleted := 0, updateTime := now }
          else it)) = db.items.filter (keyMatch k ci) := by
      apply List.filter_congr
      intro a _
      simp only [Function.comp_apply]
      split <;> rfl
    rw [hstep]
    apply List.map_congr_left ?_ |>.trans (List.map_id _)
    intro a hafil
    have hak := (List.mem_filter.mp hafil).2
    simp only [keyMatch, Bool.and_eq_true, beq_iff_eq] at hak
    have hnk : ¬(keyMatch kbId c.chunkIndex a = true) := by
      simp only [keyMatch, Bool.and_eq_true, beq_iff_eq]
      rintro ⟨h1, h2⟩
      exact hne ⟨hak.1 ▸ h1 ▸ rfl, hak.2 ▸ h2 ▸ rfl⟩
    rw [if_neg hnk]
    rfl
  · show (db.items ++ [_]).filter _ = _
    rw [List.filter_append]
    have hnewkey : keyMatch k ci
        { id := db.nextItemId, projectId := projectId, kbId := kbId
          chunkIndex := c.chunkIndex, originText := c.text
          question := c.question, answer := c.answer, source := c.source
          date := c.date, embedding := c.dense, fts := c.tokens
          isDeleted := 0, updateTime := now } = false := by
      by_cases hk : kbId = k
      · have hci2 : ¬ c.chunkIndex = ci := fun hcc => hne ⟨hk.symm, hcc.symm⟩
        simp [keyMatch, hci2]
      · simp [keyMatch, hk]
    simp [hnewkey]

theorem upsertOne_count (db : DB) (kbId projectId : Nat) (c : Chunk)
    (now : Nat) :
    ((upsertOne db kbId projectId c now).items.filter
      (keyMatch kbId c.chunkIndex)).length =
      max 1 ((db.items.filter (keyMatch kbId c.chunkIndex)).length) := by
  unfold upsertOne
  split
  · rename_i hany
    show ((db.items.map _).filter _).length = _
    rw [List.filter_map]
    have hstep : (db.items.filter
        (keyMatch kbId c.chunkIndex ∘ fun it =>
          if keyMatch kbId c.chunkIndex it then
            { it with
              originText := c.text, source := c.source, date := c.date
              question := c.question, answer := c.answer
              embedding := c.dense, fts := c.tokens
              projectId := projectId, isDeleted := 0, updateTime := now }
          else it)) = db.items.filter (keyMatch kbId c.chunkIndex) := by
      apply List.filter_congr
      intro a _
      simp only [Function.comp_apply]
      split <;> rfl
    rw [hstep, List.length_map]
    obtain ⟨a, hamem, hkey⟩ := List.any_eq_true.mp hany
    have hpos : 0 < (db.items.filter (keyMatch kbId c.chunkIndex)).length :=
      List.length_pos_of_mem (List.mem_filter.mpr ⟨hamem, hkey⟩)
    omega
  · rename_i hany
    show ((db.items ++ [_]).filter _).length = _
    rw [List.filter_append]
    have hempty : db.items.filter (keyMatch kbId c.chunkIndex) = [] := by
      rw [List.filter_eq_nil_iff]
      intro a ha hkey
      exact hany (List.any_eq_true.mpr ⟨a, ha, hkey⟩)
    rw [hempty]
    have hnewkey : keyMatch kbId c.chunkIndex
        { id := db.nextItemId, projectId := projectId, kbId := kbId
          chunkIndex := c.chunkIndex, originText := c.text
          question := c.question, answer := c.answer, source := c.source
          date := c.date, embedding := c.dense, fts := c.tokens
          isDeleted := 0, updateTime := now } = true := by
      simp [keyMatch]
    simp [hnewkey]

theorem upsertOne_pairwise (db : DB) (kbId projectId : Nat) (c : Chunk)
    (now : Nat) (h : db.items.Pairwise keyDistinct) :
    (upsertOne db kbId projectId c now).items.Pairwise keyDistinct := by
  unfold upsertOne
  split
  · show (db.items.map _).Pairwise keyDistinct
    apply List.Pairwise.map
    · intro a b hab
      revert hab
      unfold keyDistinct
      split <;> split <;> exact fun hab => hab
    · exact h
  · rename_i hany
    show (db.items ++ [_]).Pairwise keyDistinct
    rw [List.pairwise_append]
    refine ⟨h, List.pairwise_singleton _ _, ?_⟩
    intro a ha b hb
    simp only [List.mem_singleton] at hb
    subst hb
    have hak : ¬(keyMatch kbId c.chunkIndex a = true) := by
      intro hkey
      exact hany (List.any_eq_true.mpr ⟨a, ha, hkey⟩)
    simp only [keyMatch, Bool.and_eq_true, beq_iff_eq, not_and_or] at hak
    unfold keyDistinct
    rcases hak with h1 | h1
    · exact Or.inl (by simpa using h1)
    · exact Or.inr (by simpa using h1)

theorem count_key_le_one (items : List ItemRow)
    (h : items.Pairwise keyDistinct) (k ci : Nat) :
    (items.filter (keyMatch k ci)).length ≤ 1 := by
  induction items with
  | nil => simp
  | cons a t ih =>
    rw [List.pairwise_cons] at h
    by_cases hkey : keyMatch k ci a = true
    · have hnil : t.filter (keyMatch k ci) = [] := by
        rw [List.filter_eq_nil_iff]
        intro b hb hkb
        simp only [keyMatch, Bool.and_eq_true, beq_iff_eq] at hkey hkb
        rcases h.1 b hb with hd | hd
        · exact hd (hkey.1.trans hkb.1.symm)
        · exact hd (hkey.2.trans hkb.2.symm)
      simp [List.filter_cons, hkey, hnil]
    · simp only [List.filter_cons, hkey, if_false]
      exact ih h.2

theorem upsert_chunks_filter_other (kbId projectId : Nat)
    (chunks : List Chunk) (now : Nat) (k ci : Nat)
    (h : ∀ c ∈ chunks, ¬(k = kbId ∧ ci = c.chunkIndex)) :
    ∀ db : DB,
      (upsert_chunks db kbId projectId chunks now).items.filter
        (keyMatch k ci) = db.items.filter (keyMatch k ci) := by
  induction chunks with
  | nil => intro db; rfl
  | cons c rest ih =>
    intro db
    show (upsert_chunks (upsertOne db kbId projectId c now) kbId projectId
      rest now).items.filter (keyMatch k ci) = _
    rw [ih (fun c' hc' => h c' (List.mem_cons_of_mem _ hc'))
      (upsertOne db kbId projectId c now)]
    exact upsertOne_filter_other db kbId projectId c now k ci
      (h c (List.mem_cons_self _ _))

theorem upsert_chunks_pairwise (kbId projectId : Nat)
    (chunks : List Chunk) (now : Nat) :
    ∀ db : DB, db.items.Pairwise keyDistinct →
      (upsert_chunks db kbId projectId chunks now).items.Pairwise
        keyDistinct := by
  induction chunks with
  | nil => intro db h; exact h
  | cons c rest ih =>
    intro db h
    show (upsert_chunks (upsertOne db kbId projectId c now) kbId projectId
      rest now).items.Pairwise keyDistinct
    exact ih _ (upsertOne_pairwise db kbId projectId c now h)

theorem upsert_run_key_spec (kbId projectId : Nat) (now : Nat)
    (chunks : List Chunk) :
    ∀ db : DB, db.items.Pairwise keyDistinct →
      (chunks.map Chunk.chunkIndex).Nodup →
      ∀ c ∈ chunks,
        (((upsert_chunks db kbId projectId chunks now).items.filter
          (keyMatch kbId c.chunkIndex)).length = 1) ∧
        (∀ it ∈ (upsert_chunks db kbId projectId chunks now).items,
          it.kbId = kbId → it.chunkIndex = c.chunkIndex →
          it.originText = c.text ∧ it.question = c.question ∧
          it.answer = c.answer ∧ it.source = c.source ∧ it.date = c.date ∧
          it.embedding = c.dense ∧ it.fts = c.tokens ∧
          it.projectId = projectId ∧ it.isDeleted = 0 ∧
          it.updateTime = now) := by
  induction chunks with
  | nil =>
    intro db _ _ c hc
    exact absurd hc (List.not_mem_nil c)
  | cons c0 rest ih =>
    intro db hpw hnd c hc
    have hnd2 : c0.chunkIndex ∉ rest.map Chunk.chunkIndex ∧
        (rest.map Chunk.chunkIndex).Nodup := by
      rw [List.map_cons, List.nodup_cons] at hnd
      exact hnd
    have hpw1 : (upsertOne db kbId projectId c0 now).items.Pairwise
        keyDistinct := upsertOne_pairwise db kbId projectId c0 now hpw
    rcases List.mem_cons.mp hc with rfl | hcrest
    · have hother : ∀ c' ∈ rest, ¬(kbId = kbId ∧ c.chunkIndex = c'.chunkIndex) := by
        rintro c' hc' ⟨_, hci⟩
        exact hnd2.1 (hci ▸ List.mem_map_of_mem _ hc')
      have hfil : (upsert_chunks db kbId projectId (c :: rest) now).items.filter
          (keyMatch kbId c.chunkIndex) =
          (upsertOne db kbId projectId c now).items.filter
            (keyMatch kbId c.chunkIndex) := by
        show (upsert_chunks (upsertOne db kbId projectId c now) kbId projectId
          rest now).items.filter (keyMatch kbId c.chunkIndex) = _
        exact upsert_chunks_filter_other kbId projectId rest now kbId
          c.chunkIndex hother (upsertOne db kbId projectId c now)
      constructor
      · rw [hfil, upsertOne_count]
        have := count_key_le_one db.items hpw kbId c.chunkIndex
        omega
      · intro it hmem hkb hci
        have hitfil : it ∈ (upsert_chunks db kbId projectId (c :: rest)
            now).items.filter (keyMatch kbId c.chunkIndex) :=
          List.mem_filter.mpr ⟨hmem, by simp [keyMatch, hkb, hci]⟩
        rw [hfil] at hitfil
        exact upsertOne_values db kbId projectId c now it
          (List.mem_filter.mp hitfil).1 hkb hci
    · exact ih (upsertOne db kbId projectId c0 now) hpw1 hnd2.2 c hcrest

theorem upsertOne_any_mono (db : DB) (kbId projectId : Nat) (c : Chunk)
    (now : Nat) (k ci : Nat)
    (h : db.items.any (keyMatch k ci) = true) :
    (upsertOne db kbId projectId c now).items.any (keyMatch k ci) = true := by
  obtain ⟨a, ha, hkey⟩ := List.any_eq_true.mp h
  have hmemfil : a ∈ db.items.filter (keyMatch k ci) :=
    List.mem_filter.mpr ⟨ha, hkey⟩
  by_cases heq : k = kbId ∧ ci = c.chunkIndex
  · have hcnt := upsertOne_count db kbId projectId c now
    have hpos : 0 < ((upsertOne db kbId projectId c now).items.filter
        (keyMatch kbId c.chunkIndex)).length := by
      rw [hcnt]
      omega
    obtain ⟨b, hb⟩ := List.exists_mem_of_length_pos hpos
    have hb2 := List.mem_filter.mp hb
    obtain ⟨hk, hc⟩ := heq
    rw [hk, hc]
    exact List.any_eq_true.mpr ⟨b, hb2.1, hb2.2⟩
  · have := upsertOne_filter_other db kbId projectId c now k ci heq
    have hmemfil2 : a ∈ (upsertOne db kbId projectId c now).items.filter
        (keyMatch k ci) := by rw [this]; exact hmemfil
    have hb2 := List.mem_filter.mp hmemfil2
    exact List.any_eq_true.mpr ⟨a, hb2.1, hb2.2⟩

theorem upsert_chunks_length_of_present (kbId projectId : Nat)
    (chunks : List Chunk) (now : Nat) :
    ∀ db : DB,
      (∀ c ∈ chunks, db.items.any (keyMatch kbId c.chunkIndex) = true) →
      (upsert_chunks db kbId projectId chunks now).items.length =
        db.items.length := by
  induction chunks with
  | nil => intro db _; rfl
  | cons c0 rest ih =>
    intro db hall
    show (upsert_chunks (upsertOne db kbId projectId c0 now) kbId projectId
      rest now).items.length = _
    rw [ih (upsertOne db kbId projectId c0 now)
      (fun c' hc' => upsertOne_any_mono db kbId projectId c0 now kbId
        c'.chunkIndex (hall c' (List.mem_cons_of_mem _ hc')))]
    unfold upsertOne
    rw [if_pos (hall c0 (List.mem_cons_self _ _))]
    exact List.length_map _ _

/-- C3: running `upsert_chunks` twice with the same batch of rows with
pairwise-distinct chunk indices, over a store satisfying the
`(kb_id, chunk_index)` unique constraint, adds no row on the second run
and leaves, for each chunk of the batch, exactly one row at its key,
carrying that chunk's values in every value column, `is_deleted` forced
back to 0 (resurrecting a previously soft-deleted slot) and the update
timestamp refreshed to the second run's clock. -/
theorem upsert_batch_idempotent (db : DB) (kbId projectId : Nat)
    (chunks : List Chunk) (now1 now2 : Nat)
    (hpw : db.items.Pairwise keyDistinct)
    (hnd : (chunks.map Chunk.chunkIndex).Nodup) :
    ((upsert_chunks (upsert_chunks db kbId projectId chunks now1) kbId
        projectId chunks now2).items.length =
      (upsert_chunks db kbId projectId chunks now1).items.length) ∧
    ∀ c ∈ chunks,
      (((upsert_chunks (upsert_chunks db kbId projectId chunks now1) kbId
          projectId chunks now2).items.filter
        (keyMatch kbId c.chunkIndex)).length = 1) ∧
      (∀ it ∈ (upsert_chunks (upsert_chunks db kbId projectId chunks now1)
          kbId projectId chunks now2).items,
        it.kbId = kbId → it.chunkIndex = c.chunkIndex →
        it.originText = c.text ∧ it.question = c.question ∧
        it.answer = c.answer ∧ it.source = c.source ∧ it.date = c.date ∧
        it.embedding = c.dense ∧ it.fts = c.tokens ∧
        it.projectId = projectId ∧ it.isDeleted = 0 ∧
        it.updateTime = now2) := by
  have hpw1 : (upsert_chunks db kbId projectId chunks now1).items.Pairwise
      keyDistinct := upsert_chunks_pairwise kbId projectId chunks now1 db hpw
  have hrun1 := upsert_run_key_spec kbId projectId now1 chunks db hpw hnd
  have hrun2 := upsert_run_key_spec kbId projectId now2 chunks
    (upsert_chunks db kbId projectId chunks now1) hpw1 hnd
  constructor
  · apply upsert_chunks_length_of_present
    intro c hc
    have hcount := (hrun1 c hc).1
    have hpos : 0 < ((upsert_chunks db kbId projectId chunks
        now1).items.filter (keyMatch kbId c.chunkIndex)).length := by
      omega
    obtain ⟨b, hb⟩ := List.exists_mem_of_length_pos hpos
    have hb2 := List.mem_filter.mp hb
    exact List.any_eq_true.mpr ⟨b, hb2.1, hb2.2⟩
  · intro c hc
    exact hrun2 c hc

/-- Witness for C3: double-upserting a single chunk at key `(1, 0)` over
a store whose only row at that key is soft-deleted leaves exactly one
live row at the key (the slot is resurrected with the chunk's values and
the second run's timestamp) and the second run adds nothing. -/
theorem upsert_batch_idempotent_witness :
    (((upsert_chunks (upsert_chunks dbDeadFix 1 1 [chunkFix] 6) 1 1
        [chunkFix] 7).items.filter (keyMatch 1 0)).length = 1) ∧
    ((upsert_chunks (upsert_chunks dbDeadFix 1 1 [chunkFix] 6) 1 1
        [chunkFix] 7).items.length =
      (upsert_chunks dbDeadFix 1 1 [chunkFix] 6).items.length) ∧
    ((upsert_chunks (upsert_chunks dbDeadFix 1 1 [chunkFix] 6) 1 1
        [chunkFix] 7).items =
      [{ itemDeadFix with
          originText := "fresh"
          embedding := [2]
          fts := ["fresh"]
          isDeleted := 0
          updateTime := 7 }]) :=
  ⟨((upsert_batch_idempotent dbDeadFix 1 1 [chunkFix] 6 7
      (List.pairwise_singleton _ _) (by decide)).2 chunkFix
      (List.mem_cons_self _ _)).1,
    (upsert_batch_idempotent dbDeadFix 1 1 [chunkFix] 6 7
      (List.pairwise_singleton _ _) (by decide)).1,
    by decide⟩

end VdbCenter
